import Mathlib

/-!
Shallow embedding of the LinkedIn-Scraper service (FastAPI + MongoDB).

The store is modelled as lists of documents, one list per MongoDB
collection (`pages`, `posts`, `employees`, `comments`).  Each pymongo
operation used by `services/database_service.py` and `api/routes.py` is
modelled as a pure function on those lists:

  * `find_one(q)`        — first list element matching `q`;
  * `update_one(q, $set)`— replace the first matching element (the `$set`
                           payload is always the full document, so the
                           update is a whole-document replacement; the
                           store-assigned `_id` is not modelled);
  * `insert_one` / `insert_many` — append at the end;
  * `delete_one(q)`      — remove the first matching element;
  * `delete_many(q)`     — remove every matching element;
  * `count_documents(q)` — number of matching elements;
  * `find(q).skip(a).limit(b)` — matching elements in insertion order,
                           dropping `a` and taking `b`;
  * `sort(k, -1)`        — descending stable sort on field `k`.

Missing dictionary keys and `None` values are both modelled as `none` of
an `Option` type (both are falsy in Python and neither matches a MongoDB
equality query against a string value).  Timestamps are `Nat` passed in
explicitly in place of `datetime.utcnow()`.  HTTP errors raised through
`HTTPException` are an explicit error value carrying the status code.
-/

namespace LinkedInScraper

/-- A document of the `pages` collection.  Field set as produced by
`scrape_company_page` plus the `scraped_at` stamp added by `create_page`
(`services/scraper_service.py` lines 76-163, `database_service.py` line 26).
The store-assigned `_id` is not modelled. -/
structure PageDoc where
  page_id : String
  url : String
  name : Option String
  description : Option String
  followers_count : Int
  profile_image_url : Option String
  website : Option String
  industry : Option String
  headcount : Option String
  location : Option String
  founded_year : Option Int
  specialities : List String
  scraped_at : Nat
deriving Repr, DecidableEq

/-- The scraped company dictionary before `create_page` stamps
`scraped_at` onto it (the `company_data` dict of `scrape_company_page`). -/
structure PageData where
  page_id : String
  url : String
  name : Option String
  description : Option String
  followers_count : Int
  profile_image_url : Option String
  website : Option String
  industry : Option String
  headcount : Option String
  location : Option String
  founded_year : Option Int
  specialities : List String
deriving Repr, DecidableEq

/-- `create_page` writes `page_data` with `scraped_at = now` (the dict the
route receives back and stores). -/
def PageData.stamp (d : PageData) (now : Nat) : PageDoc :=
  ⟨d.page_id, d.url, d.name, d.description, d.followers_count,
   d.profile_image_url, d.website, d.industry, d.headcount, d.location,
   d.founded_year, d.specialities, now⟩

/-- A document of the `posts` collection (`scrape_company_posts`,
lines 182-220).  `linkedin_post_id = none` models a document/record in
which the key is absent, so that `post["linkedin_post_id"]` raises. -/
structure PostDoc where
  page_id : String
  linkedin_post_id : Option String
  content : String
  permalink : Option String
  posted_at : Option String
  likes_count : Int
  comments_count : Int
deriving Repr, DecidableEq

/-- A document of the `employees` collection (`scrape_company_employees`,
lines 250-279).  `page_id = none` models a record in which
`employees[0].get("page_id")` returns `None`. -/
structure EmployeeDoc where
  page_id : Option String
  full_name : String
  profile_url : Option String
  headline : Option String
  location : Option String
  type : String
deriving Repr, DecidableEq

/-- A document of the `comments` collection (`create_comments` /
`scrape_post_comments`). -/
structure CommentDoc where
  post_id : String
  author_name : String
  text : String
  created_at : Option String
deriving Repr, DecidableEq

/-- The MongoDB database: one list per collection, in insertion order. -/
structure Store where
  pages : List PageDoc
  posts : List PostDoc
  employees : List EmployeeDoc
  comments : List CommentDoc
deriving Repr, DecidableEq

/-! ### Collection-level pymongo operations -/

/-- `pages.find_one({"page_id": pid})`. -/
def pagesFindOne (l : List PageDoc) (pid : String) : Option PageDoc :=
  l.find? (fun p => p.page_id == pid)

/-- `pages.update_one({"page_id": pid}, {"$set": d})` — replace the first
matching document (the `$set` payload carries every field). -/
def pagesUpdateOne : List PageDoc → String → PageDoc → List PageDoc
  | [], _, _ => []
  | p :: ps, pid, d =>
    if p.page_id == pid then d :: ps else p :: pagesUpdateOne ps pid d

/-- `pages.delete_one({"page_id": pid})` — remove the first matching
document. -/
def pagesDeleteOne : List PageDoc → String → List PageDoc
  | [], _ => []
  | p :: ps, pid => if p.page_id == pid then ps else p :: pagesDeleteOne ps pid

/-- `posts.find_one({"linkedin_post_id": lid})`.  A document whose key is
absent (`none`) does not match an equality query against a string. -/
def postsFindOne (l : List PostDoc) (lid : String) : Option PostDoc :=
  l.find? (fun q => q.linkedin_post_id == some lid)

/-- `posts.update_one({"linkedin_post_id": lid}, {"$set": d})`. -/
def postsUpdateOne : List PostDoc → String → PostDoc → List PostDoc
  | [], _, _ => []
  | q :: qs, lid, d =>
    if q.linkedin_post_id == some lid then d :: qs
    else q :: postsUpdateOne qs lid d

/-- `posts.delete_many({"page_id": pid})`. -/
def postsDeleteMany (l : List PostDoc) (pid : String) : List PostDoc :=
  l.filter (fun q => !(q.page_id == pid))

/-- `employees.delete_many({"page_id": pid})`.  An employee document whose
`page_id` is absent/None does not match the string-valued query. -/
def employeesDeleteMany (l : List EmployeeDoc) (pid : String) :
    List EmployeeDoc :=
  l.filter (fun e => !(e.page_id == some pid))

/-! ### MongoDB `$regex` matching with options "i"

`get_pages_with_filters` passes the raw user-supplied `name`/`industry`
strings to MongoDB as `{"$regex": pattern, "$options": "i"}`.  The regex
engine is external to this repository; we model it on the fragment of
patterns actually expressible here: every character is a literal matched
case-insensitively, except `.` which matches any single character.  The
match is unanchored (the pattern may match at any position), as MongoDB
`$regex` is. -/

/-- One pattern character against one text character: `.` is a wildcard,
anything else compares case-insensitively. -/
def regexCharMatches (pc c : Char) : Bool :=
  pc == '.' || pc.toLower == c.toLower

/-- Match the whole pattern starting exactly at the head of the text. -/
def regexMatchHere : List Char → List Char → Bool
  | [], _ => true
  | _ :: _, [] => false
  | pc :: ps, c :: cs => regexCharMatches pc c && regexMatchHere ps cs

/-- Unanchored search: the pattern matches at some position of the text. -/
def regexSearch (pat : List Char) : List Char → Bool
  | [] => regexMatchHere pat []
  | c :: cs => regexMatchHere pat (c :: cs) || regexSearch pat cs

/-- `{"field": {"$regex": pattern, "$options": "i"}}` applied to a string
field value. -/
def mongoRegexI (pattern s : String) : Bool :=
  regexSearch pattern.data s.data

/-! ### `services/database_service.py` -/

/-- `get_page_by_id` (lines 18-23): `pages.find_one({"page_id": page_id})`. -/
def get_page_by_id (s : Store) (pid : String) : Option PageDoc :=
  pagesFindOne s.pages pid

/-- The find-then-update-or-insert sequence of `create_page`
(lines 29-41), acting on the `pages` collection. -/
def pagesUpsert (l : List PageDoc) (doc : PageDoc) : List PageDoc :=
  match pagesFindOne l doc.page_id with
  | some _ => pagesUpdateOne l doc.page_id doc
  | none => l ++ [doc]

/-- `create_page` (lines 24-43): stamp `scraped_at`, then update the
existing document in place if one with the same `page_id` exists, else
insert.  Returns the stored record (without the `_id`, which is not
modelled). -/
def create_page (s : Store) (d : PageData) (now : Nat) : Store × PageDoc :=
  ({ s with pages := pagesUpsert s.pages (d.stamp now) }, d.stamp now)

/-- The filter document built by `get_pages_with_filters` (lines 55-68),
applied to one page document.  `min_followers`/`max_followers` are added
when not `None`; `name`/`industry` are added when truthy (so the empty
string adds no clause); a document whose `name`/`industry` is null or
absent never matches the `$regex` clause. -/
def pageMatchesQuery (mn mx : Option Int) (nm ind : Option String)
    (p : PageDoc) : Bool :=
  (match mn with | some v => v ≤ p.followers_count | none => true) &&
  (match mx with | some v => p.followers_count ≤ v | none => true) &&
  (match nm with
   | some pat =>
     if pat == "" then true
     else match p.name with
          | some s => mongoRegexI pat s
          | none => false
   | none => true) &&
  (match ind with
   | some pat =>
     if pat == "" then true
     else match p.industry with
          | some s => mongoRegexI pat s
          | none => false
   | none => true)

/-- `get_pages_with_filters` (lines 45-81): count the matching documents,
then return the slice `skip((page-1)*page_size).limit(page_size)` of the
matching documents in insertion order, together with the total count. -/
def get_pages_with_filters (s : Store) (mn mx : Option Int)
    (nm ind : Option String) (page page_size : Nat) :
    List PageDoc × Nat :=
  let matching := s.pages.filter (pageMatchesQuery mn mx nm ind)
  let skip := (page - 1) * page_size
  ((matching.drop skip).take page_size, matching.length)

/-- One iteration of the loop in `create_posts` (lines 90-107), acting on
the `posts` collection and the running inserted count.  A record without
the `linkedin_post_id` key raises `KeyError`, which the `except` clause
turns into a skip. -/
def createPostsStep (l : List PostDoc) (cnt : Nat) (post : PostDoc) :
    List PostDoc × Nat :=
  match post.linkedin_post_id with
  | none => (l, cnt)
  | some lid =>
    match postsFindOne l lid with
    | some _ => (postsUpdateOne l lid post, cnt)
    | none => (l ++ [post], cnt + 1)

/-- The whole `create_posts` loop over the `posts` collection, starting
from inserted count 0. -/
def createPostsFold (l : List PostDoc) (posts : List PostDoc) :
    List PostDoc × Nat :=
  posts.foldl (fun acc post => createPostsStep acc.1 acc.2 post) (l, 0)

/-- `create_posts` (lines 84-109): upsert each record by
`linkedin_post_id`, counting only fresh inserts; failing records are
skipped without aborting the batch. -/
def create_posts (s : Store) (posts : List PostDoc) : Store × Nat :=
  ({ s with posts := (createPostsFold s.posts posts).1 },
   (createPostsFold s.posts posts).2)

/-- Descending comparison key used by `.sort("posted_at", -1)`: BSON
orders null below every string, and strings lexicographically. -/
def postedAtLe (a b : Option String) : Bool :=
  match a, b with
  | none, _ => true
  | some _, none => false
  | some x, some y => x ≤ y

/-- `get_posts_by_page` (lines 111-118):
`posts.find({"page_id": pid}).sort("posted_at", -1).limit(limit)`. -/
def get_posts_by_page (s : Store) (pid : String) (limit : Nat) :
    List PostDoc :=
  (((s.posts.filter (fun q => q.page_id == pid)).mergeSort
    (fun a b => postedAtLe b.posted_at a.posted_at)).take limit)

/-- The delete-then-insert sequence of `create_employees`
(lines 126-132), acting on the `employees` collection: the deletion is
keyed on `employees[0].get("page_id")` and skipped entirely when that
value is missing or falsy. -/
def employeesReplaceList (l : List EmployeeDoc) (es : List EmployeeDoc) :
    List EmployeeDoc :=
  match es with
  | [] => l
  | e0 :: _ =>
    (match e0.page_id with
     | some pid => if pid == "" then l else employeesDeleteMany l pid
     | none => l) ++ es

/-- `create_employees` (lines 121-133): empty input returns 0 without
touching the store; otherwise replace per `employeesReplaceList` and
return the number of inserted records. -/
def create_employees (s : Store) (es : List EmployeeDoc) : Store × Nat :=
  match es with
  | [] => (s, 0)
  | _ :: _ =>
    ({ s with employees := employeesReplaceList s.employees es }, es.length)

/-- `get_employees_by_page` (lines 135-152): count plus the
`skip((page-1)*page_size).limit(page_size)` slice of the employees whose
`page_id` matches. -/
def get_employees_by_page (s : Store) (pid : String)
    (page page_size : Nat) : List EmployeeDoc × Nat :=
  let matching := s.employees.filter (fun e => e.page_id == some pid)
  ((matching.drop ((page - 1) * page_size)).take page_size, matching.length)

/-- `get_page_stats` (lines 181-189): `(total_posts, total_employees)`
for one page. -/
def get_page_stats (s : Store) (pid : String) : Nat × Nat :=
  ((s.posts.filter (fun q => q.page_id == pid)).length,
   (s.employees.filter (fun e => e.page_id == some pid)).length)

/-! ### `api/routes.py`

Each handler is modelled as a function from the store (and, for the two
scraping endpoints, the scraper collaborator's behaviour) to the final
store paired with either a response value or an `HTTPException`.  The
final store is threaded through even on error, because ingestion is not
transactional: writes committed before a raise stay committed. -/

/-- A raised `fastapi.HTTPException`: status code and detail message. -/
structure HTTPErr where
  status : Nat
  detail : String
deriving Repr, DecidableEq

/-- The behaviour of the external scraper collaborator for one request:
session state, login outcome, and the data each scrape call would return
for the requested page.  `scrape_company_page` always returns a dict
(its own exceptions are swallowed internally), so `company_data` is
total; `name = none` or `name = some ""` is the not-found signal tested
by the routes. -/
structure ScrapeEnv where
  is_logged_in : Bool
  login_ok : Bool
  company_data : PageData
  posts_data : List PostDoc
  employees_data : List EmployeeDoc
deriving Repr

/-- `company_data.get("name")` is falsy: the key holds `None` or `""`. -/
def nameFalsy (d : PageData) : Bool :=
  match d.name with
  | none => true
  | some s => s == ""

/-- `str(e)` for a `fastapi.HTTPException`: `"{status_code}: {detail}"`. -/
def HTTPErr.str (e : HTTPErr) : String :=
  toString e.status ++ ": " ++ e.detail

/-- The `except Exception` clause of the two scraping handlers
(`routes.py` lines 87-88 and 251-252): every exception raised inside the
`try` — `HTTPException` included, since it subclasses `Exception` — is
re-raised as a 500 whose detail wraps `str(e)`. -/
def wrapScrapingError (e : HTTPErr) : HTTPErr :=
  ⟨500, "Scraping error: " ++ e.str⟩

/-- Body of the `try` block of `get_page_details` (lines 62-85): log in
if needed, scrape the company dict, 404 when it has no name, then commit
the page, the posts (when any were scraped) and the employees (when any
were scraped).  Partial commits before a raise are kept. -/
def scrapeAndStore (env : ScrapeEnv) (s : Store) (pid : String)
    (now : Nat) : Store × Except HTTPErr PageDoc :=
  if !env.is_logged_in && !env.login_ok then
    (s, .error ⟨500, "Failed to login to LinkedIn"⟩)
  else if nameFalsy env.company_data then
    (s, .error ⟨404, "Page " ++ pid ++ " not found on LinkedIn"⟩)
  else
    let r1 := create_page s env.company_data now
    let s2 := if env.posts_data.isEmpty then r1.1
      else (create_posts r1.1 env.posts_data).1
    let s3 := if env.employees_data.isEmpty then s2
      else (create_employees s2 env.employees_data).1
    (s3, .ok r1.2)

/-- The page-detail response: page fields plus the optional posts and
employees lists and the store-wide counts. -/
structure PageDetails where
  page : PageDoc
  posts : List PostDoc
  employees : List EmployeeDoc
  total_posts : Nat
  total_employees : Nat
deriving Repr, DecidableEq

/-- Result assembly of `get_page_details` (lines 90-110). -/
def assembleDetails (s : Store) (pid : String) (page : PageDoc)
    (include_posts include_employees : Bool) : PageDetails :=
  let posts := if include_posts then get_posts_by_page s pid 15 else []
  let employees :=
    if include_employees then (get_employees_by_page s pid 1 50).1 else []
  let stats := get_page_stats s pid
  ⟨page, posts, employees, stats.1, stats.2⟩

/-- `GET /pages/{page_id}` (`get_page_details`, lines 39-110): scrape
when the page is absent or `force_scrape` is set — any exception raised
in the `try`, the explicit 404 included, surfaces as a wrapped 500 —
then assemble the response from the store. -/
def get_page_details (env : ScrapeEnv) (s : Store) (pid : String)
    (include_posts include_employees force_scrape : Bool) (now : Nat) :
    Store × Except HTTPErr PageDetails :=
  let fetched :=
    match get_page_by_id s pid with
    | some p =>
      if force_scrape then
        let r := scrapeAndStore env s pid now
        (r.1, r.2.mapError wrapScrapingError)
      else (s, .ok p)
    | none =>
      let r := scrapeAndStore env s pid now
      (r.1, r.2.mapError wrapScrapingError)
  match fetched with
  | (s', .ok page) =>
    (s', .ok (assembleDetails s' pid page include_posts include_employees))
  | (s', .error e) => (s', .error e)

/-- The pagination envelope `{items, total, page, page_size, total_pages}`. -/
structure Paginated (α : Type) where
  items : List α
  total : Nat
  page : Nat
  page_size : Nat
  total_pages : Nat
deriving Repr, DecidableEq

/-- `math.ceil(total / page_size) if total > 0 else 0` over naturals
(`page_size ≥ 1` is enforced by query validation). -/
def totalPagesOf (total page_size : Nat) : Nat :=
  if 0 < total then (total + page_size - 1) / page_size else 0

/-- `GET /pages` (`search_pages`, lines 113-149).  FastAPI validates
`page ≥ 1` and `1 ≤ page_size ≤ 100` before the handler runs. -/
def search_pages (s : Store) (mn mx : Option Int) (nm ind : Option String)
    (page page_size : Nat) : Paginated PageDoc :=
  let r := get_pages_with_filters s mn mx nm ind page page_size
  ⟨r.1, r.2, page, page_size, totalPagesOf r.2 page_size⟩

/-- `GET /pages/{page_id}/employees` (`get_page_employees`,
lines 170-195): 404 when the page is absent from the store, else the
paginated employee slice. -/
def get_page_employees (s : Store) (pid : String) (page page_size : Nat) :
    Except HTTPErr (Paginated EmployeeDoc) :=
  match get_page_by_id s pid with
  | none => .error ⟨404, "Page " ++ pid ++ " not found in database"⟩
  | some _ =>
    let r := get_employees_by_page s pid page page_size
    .ok ⟨r.1, r.2, page, page_size, totalPagesOf r.2 page_size⟩

/-- Response of the manual-scrape endpoint. -/
structure ScrapeNowResult where
  page_id : String
  page_name : Option String
  posts_scraped : Nat
  employees_scraped : Nat
deriving Repr, DecidableEq

/-- Body of the `try` block of `scrape_page_now` (lines 213-249). -/
def scrapeNowInner (env : ScrapeEnv) (s : Store) (pid : String)
    (scrape_posts scrape_employees : Bool) (now : Nat) :
    Store × Except HTTPErr ScrapeNowResult :=
  if !env.is_logged_in && !env.login_ok then
    (s, .error ⟨500, "Failed to login to LinkedIn"⟩)
  else if nameFalsy env.company_data then
    (s, .error ⟨404, "Page " ++ pid ++ " not found on LinkedIn"⟩)
  else
    let r1 := create_page s env.company_data now
    let rp := if scrape_posts && !env.posts_data.isEmpty then
        create_posts r1.1 env.posts_data
      else (r1.1, 0)
    let re := if scrape_employees && !env.employees_data.isEmpty then
        create_employees rp.1 env.employees_data
      else (rp.1, 0)
    (re.1, .ok ⟨pid, env.company_data.name, rp.2, re.2⟩)

/-- `POST /pages/{page_id}/scrape` (`scrape_page_now`, lines 198-252):
like the detail endpoint, every exception raised inside the `try` —
the explicit 404 included — surfaces as a wrapped 500. -/
def scrape_page_now (env : ScrapeEnv) (s : Store) (pid : String)
    (scrape_posts scrape_employees : Bool) (now : Nat) :
    Store × Except HTTPErr ScrapeNowResult :=
  let r := scrapeNowInner env s pid scrape_posts scrape_employees now
  (r.1, r.2.mapError wrapScrapingError)

/-- `DELETE /pages/{page_id}` (`delete_page`, lines 255-277): 404 when
the page is absent; otherwise delete the page document and every post
and employee with that `page_id`.  The `comments` collection is not
touched. -/
def delete_page (s : Store) (pid : String) : Store × Except HTTPErr Unit :=
  match get_page_by_id s pid with
  | none => (s, .error ⟨404, "Page " ++ pid ++ " not found"⟩)
  | some _ =>
    ({ s with
        pages := pagesDeleteOne s.pages pid,
        posts := postsDeleteMany s.posts pid,
        employees := employeesDeleteMany s.employees pid }, .ok ())

/-- The commit sequence one ingestion performs once the scraped company
dict has a name (`routes.py` lines 74-85 and 226-241 with both scrape
flags on): upsert the page, upsert the posts when any were scraped,
replace the employees when any were scraped. -/
def ingest_commit (s : Store) (d : PageData) (posts : List PostDoc)
    (es : List EmployeeDoc) (now : Nat) : Store :=
  let s1 := (create_page s d now).1
  let s2 := if posts.isEmpty then s1 else (create_posts s1 posts).1
  if es.isEmpty then s2 else (create_employees s2 es).1

/-! ### Spec-side definition for claim C5

The spec describes the `name`/`industry` filters as *case-insensitive
substring* matches.  This definition follows the spec's words (not the
code) so the two can be compared. -/

/-- Case-insensitive literal match of `pat` at the head of the text. -/
def charsMatchCI : List Char → List Char → Bool
  | [], _ => true
  | _ :: _, [] => false
  | pc :: ps, c :: cs => (pc.toLower == c.toLower) && charsMatchCI ps cs

/-- Case-insensitive literal search at any position. -/
def charsSearchCI (pat : List Char) : List Char → Bool
  | [] => charsMatchCI pat []
  | c :: cs => charsMatchCI pat (c :: cs) || charsSearchCI pat cs

/-- Spec-side: `pat` occurs in `s` as a case-insensitive substring. -/
def containsCI (pat s : String) : Bool :=
  charsSearchCI pat.data s.data

/-! ### Concrete fixtures for witnesses and counterexamples -/

/-- A page document with the fields the claims exercise; the remaining
scraped fields are the scraper's defaults. -/
def mkPage (pid : String) (nm : Option String) (fc : Int)
    (ind : Option String) (t : Nat) : PageDoc :=
  ⟨pid, "https://www.linkedin.com/company/" ++ pid ++ "/", nm, none, fc,
   none, none, ind, none, none, none, [], t⟩

/-- The scraped company dict for the same fields. -/
def mkPageData (pid : String) (nm : Option String) (fc : Int)
    (ind : Option String) : PageData :=
  ⟨pid, "https://www.linkedin.com/company/" ++ pid ++ "/", nm, none, fc,
   none, none, ind, none, none, none, []⟩

/-- A post document with the given ids and `posted_at`. -/
def mkPost (pid : String) (lid : Option String) (pa : Option String) :
    PostDoc :=
  ⟨pid, lid, "", none, pa, 0, 0⟩

/-- An employee document with the given `page_id` and name. -/
def mkEmp (pid : Option String) (nm : String) : EmployeeDoc :=
  ⟨pid, nm, none, none, none, "EMPLOYEE"⟩

/-- A comment document attached to the given post id. -/
def mkComment (postId : String) : CommentDoc :=
  ⟨postId, "Unknown", "", none⟩

/-- Two stores are equal when all four collections are. -/
theorem Store.eq_of_parts {a b : Store} (h1 : a.pages = b.pages)
    (h2 : a.posts = b.posts) (h3 : a.employees = b.employees)
    (h4 : a.comments = b.comments) : a = b := by
  cases a; cases b; simp_all

/-! ### Claim C3 -/

/-- C3 counterexample.  The claim states that `create_employees` with a
non-empty list "deletes all employees whose `page_id` matches the first
record's `page_id`, then inserts the new list".  With a first record
whose `page_id` is the (falsy) empty string, the code skips the deletion
(`if page_id:`), so a previously stored employee whose `page_id` equals
the first record's `page_id` survives — the claim would have it deleted. -/
theorem c3_counterexample :
    ((create_employees ⟨[], [], [mkEmp (some "") "Old"], []⟩
        [mkEmp (some "") "New"]).1.employees
      = [mkEmp (some "") "Old", mkEmp (some "") "New"])
    ∧ (mkEmp (some "") "Old").page_id = (mkEmp (some "") "New").page_id :=
  ⟨rfl, rfl⟩

/-- C3 (amended): `create_employees` with an empty list is a no-op
returning 0; with a non-empty list it returns the inserted count and,
*when the first record's `page_id` is present and non-empty*, deletes
all employees with that `page_id` before inserting the new list — when
that `page_id` is missing or empty no deletion happens and the list is
appended as-is. -/
theorem c3_replace_employees (s : Store) (es : List EmployeeDoc) :
    (es = [] → create_employees s es = (s, 0))
    ∧ (∀ e0 rest, es = e0 :: rest →
        (create_employees s es).2 = es.length
        ∧ (∀ pid, e0.page_id = some pid → pid ≠ "" →
            (create_employees s es).1.employees
              = s.employees.filter (fun e => !(e.page_id == some pid)) ++ es)
        ∧ ((e0.page_id = none ∨ e0.page_id = some "") →
            (create_employees s es).1.employees = s.employees ++ es)) := by
  constructor
  · intro h; subst h; rfl
  · intro e0 rest h; subst h
    refine ⟨rfl, ?_, ?_⟩
    · intro pid hpid hne
      simp only [create_employees, employeesReplaceList, hpid,
        employeesDeleteMany]
      rw [if_neg (by simpa using hne)]
    · intro h
      rcases h with h | h <;>
        simp [create_employees, employeesReplaceList, h]

/-- C3 witness: a non-empty call with a real `page_id` replaces that
page's employees and returns the inserted count. -/
theorem c3_replace_employees_witness :
    ((create_employees ⟨[], [], [mkEmp (some "p") "A", mkEmp (some "q") "B"], []⟩
        [mkEmp (some "p") "C"]).1.employees
      = [mkEmp (some "q") "B", mkEmp (some "p") "C"])
    ∧ (create_employees ⟨[], [], [mkEmp (some "p") "A", mkEmp (some "q") "B"], []⟩
        [mkEmp (some "p") "C"]).2 = 1 := by
  have h := (c3_replace_employees
    ⟨[], [], [mkEmp (some "p") "A", mkEmp (some "q") "B"], []⟩
    [mkEmp (some "p") "C"]).2 (mkEmp (some "p") "C") [] rfl
  refine ⟨?_, h.1⟩
  rw [h.2.1 "p" rfl (by decide)]
  rfl

/-! ### Claim C10 -/

/-- C10: in `create_employees` with a non-empty list, the deletion is
keyed solely on the first record's `page_id` and skipped when it is
missing or falsy (the call degrades to a pure append); every input
record is inserted regardless of its own `page_id`, and employees of
other pages are never cleared. -/
theorem c10_employees_append_semantics (s : Store) (e0 : EmployeeDoc)
    (rest : List EmployeeDoc) :
    (create_employees s (e0 :: rest)).2 = (e0 :: rest).length
    ∧ ((e0.page_id = none ∨ e0.page_id = some "") →
        (create_employees s (e0 :: rest)).1.employees
          = s.employees ++ e0 :: rest)
    ∧ (∀ e, e ∈ e0 :: rest →
        e ∈ (create_employees s (e0 :: rest)).1.employees)
    ∧ (∀ e, e ∈ s.employees → e.page_id ≠ e0.page_id →
        e ∈ (create_employees s (e0 :: rest)).1.employees) := by
  refine ⟨rfl, ?_, ?_, ?_⟩
  · intro h
    rcases h with h | h <;>
      simp [create_employees, employeesReplaceList, h]
  · intro e he
    simp only [create_employees, employeesReplaceList]
    cases h0 : e0.page_id with
    | none => exact List.mem_append_right _ he
    | some pid =>
      by_cases hp : (pid == "") = true <;>
        simp only [hp, if_true, if_false, Bool.false_eq_true, if_neg] <;>
        exact List.mem_append_right _ he
  · intro e he hne
    simp only [create_employees, employeesReplaceList]
    cases h0 : e0.page_id with
    | none => exact List.mem_append_left _ he
    | some pid =>
      by_cases hp : (pid == "") = true
      · simp only [hp, if_true]
        exact List.mem_append_left _ he
      · simp only [hp, Bool.false_eq_true, if_false]
        refine List.mem_append_left _ ?_
        simp only [employeesDeleteMany, List.mem_filter]
        refine ⟨he, ?_⟩
        simp only [Bool.not_eq_eq_eq_not, Bool.not_true, beq_eq_false_iff_ne]
        rw [h0] at hne
        exact hne

/-- C10 witness: a falsy first `page_id` turns the call into an append
that still clears nothing and inserts a record of another page. -/
theorem c10_employees_append_semantics_witness :
    (create_employees ⟨[], [], [mkEmp (some "p") "A"], []⟩
        [mkEmp none "X", mkEmp (some "q") "Y"]).1.employees
      = [mkEmp (some "p") "A", mkEmp none "X", mkEmp (some "q") "Y"] := by
  have h := (c10_employees_append_semantics
    ⟨[], [], [mkEmp (some "p") "A"], []⟩ (mkEmp none "X")
    [mkEmp (some "q") "Y"]).2.1 (Or.inl rfl)
  exact h

/-! ### Claim C8 -/

/-- C8: when the page is already stored and `force_scrape` is false, the
detail endpoint performs no scrape and no write — the returned store is
the input store, and the response is assembled from it. -/
theorem c8_no_write_when_cached (env : ScrapeEnv) (s : Store)
    (pid : String) (ip ie : Bool) (now : Nat) (p : PageDoc)
    (hp : get_page_by_id s pid = some p) :
    get_page_details env s pid ip ie false now
      = (s, .ok (assembleDetails s pid p ip ie)) := by
  simp [get_page_details, hp]

/-- C8 witness: a stored page served without `force_scrape` leaves the
store untouched even though the scraper would have returned new data. -/
theorem c8_no_write_when_cached_witness :
    (get_page_details
        ⟨true, true, mkPageData "acme" (some "Fresh") 9 none,
         [mkPost "acme" (some "l9") none], [mkEmp (some "acme") "Z"]⟩
        ⟨[mkPage "acme" (some "Acme") 5 none 0], [], [], []⟩
        "acme" true true false 7).1
      = ⟨[mkPage "acme" (some "Acme") 5 none 0], [], [], []⟩ := by
  have h := c8_no_write_when_cached
    ⟨true, true, mkPageData "acme" (some "Fresh") 9 none,
     [mkPost "acme" (some "l9") none], [mkEmp (some "acme") "Z"]⟩
    ⟨[mkPage "acme" (some "Acme") 5 none 0], [], [], []⟩
    "acme" true true 7 (mkPage "acme" (some "Acme") 5 none 0) (by decide)
  rw [h]

/-! ### Claim C2 -/

/-- C2 counterexample.  The claim states that after deleting a page "no
entity owned transitively by that Page (including Comments of its
Posts) remains in the store".  Deleting page `p1`, which owns post `x`,
leaves the comment attached to post `x` in the `comments` collection:
`delete_page` never touches it. -/
theorem c2_counterexample :
    ((delete_page
        ⟨[mkPage "p1" (some "Acme") 0 none 0], [mkPost "p1" (some "x") none],
         [], [mkComment "x"]⟩ "p1").1.comments
      = [mkComment "x"])
    ∧ ((delete_page
        ⟨[mkPage "p1" (some "Acme") 0 none 0], [mkPost "p1" (some "x") none],
         [], [mkComment "x"]⟩ "p1").2 = .ok ())
    ∧ (mkPost "p1" (some "x") none).page_id
        = (mkPage "p1" (some "Acme") 0 none 0).page_id
    ∧ (mkPost "p1" (some "x") none).linkedin_post_id
        = some (mkComment "x").post_id :=
  ⟨rfl, rfl, rfl, rfl⟩

/-- `delete_one` removes every occurrence when at most one page document
carries the `page_id` (the unique index of `main.py` line 27 guarantees
this invariant). -/
theorem pagesDeleteOne_eq_filter (l : List PageDoc) (pid : String)
    (h : (l.filter (fun p => p.page_id == pid)).length ≤ 1) :
    pagesDeleteOne l pid = l.filter (fun p => !(p.page_id == pid)) := by
  induction l with
  | nil => rfl
  | cons p ps ih =>
    by_cases hp : (p.page_id == pid) = true
    · have hlen : (ps.filter (fun q => q.page_id == pid)).length = 0 := by
        simp only [List.filter_cons, hp, if_true, List.length_cons] at h
        omega
      have hall := List.filter_eq_nil_iff.mp (List.length_eq_zero.mp hlen)
      simp only [pagesDeleteOne, hp, if_true, List.filter_cons,
        Bool.not_true, Bool.false_eq_true, if_false]
      symm
      rw [List.filter_eq_self]
      intro q hq
      simpa using hall q hq
    · have hp' : (p.page_id == pid) = false := by
        simpa using hp
      have h' : (ps.filter (fun q => q.page_id == pid)).length ≤ 1 := by
        simpa [List.filter_cons, hp'] using h
      simp only [pagesDeleteOne, hp', Bool.false_eq_true, if_false,
        List.filter_cons, Bool.not_false, if_true]
      rw [ih h']

/-- C2 (amended): deleting a stored page removes the Page and every Post
and Employee whose `page_id` matches, removes nothing else, and leaves
the `comments` collection untouched — Comments of the deleted page's
Posts survive; deleting an absent `page_id` returns Not-Found (404) and
leaves the store unchanged.  (The uniqueness hypothesis reflects the
unique index on `pages.page_id` created in `main.py`.) -/
theorem c2_delete_cascade (s : Store) (pid : String)
    (huniq : (s.pages.filter (fun p => p.page_id == pid)).length ≤ 1) :
    (get_page_by_id s pid = none →
      delete_page s pid = (s, .error ⟨404, "Page " ++ pid ++ " not found"⟩))
    ∧ (∀ p, get_page_by_id s pid = some p →
        (delete_page s pid).2 = .ok ()
        ∧ (delete_page s pid).1.pages
            = s.pages.filter (fun q => !(q.page_id == pid))
        ∧ (∀ q ∈ (delete_page s pid).1.posts, q.page_id ≠ pid)
        ∧ (∀ e ∈ (delete_page s pid).1.employees, e.page_id ≠ some pid)
        ∧ (∀ q ∈ s.posts, q.page_id ≠ pid → q ∈ (delete_page s pid).1.posts)
        ∧ (∀ e ∈ s.employees, e.page_id ≠ some pid →
            e ∈ (delete_page s pid).1.employees)
        ∧ (delete_page s pid).1.comments = s.comments) := by
  constructor
  · intro h; simp [delete_page, h]
  · intro p hp
    have hdp : delete_page s pid
        = (⟨pagesDeleteOne s.pages pid, postsDeleteMany s.posts pid,
            employeesDeleteMany s.employees pid, s.comments⟩, .ok ()) := by
      simp [delete_page, hp]
    rw [hdp]
    refine ⟨rfl, pagesDeleteOne_eq_filter s.pages pid huniq, ?_, ?_, ?_, ?_, rfl⟩
    · intro q hq
      simp only [postsDeleteMany] at hq
      have := (List.mem_filter.mp hq).2
      simpa using this
    · intro e he
      simp only [employeesDeleteMany] at he
      have := (List.mem_filter.mp he).2
      simpa using this
    · intro q hq hne
      simp only [postsDeleteMany]
      exact List.mem_filter.mpr ⟨hq, by simpa using hne⟩
    · intro e he hne
      simp only [employeesDeleteMany]
      exact List.mem_filter.mpr ⟨he, by simpa using hne⟩

/-- C2 witness: deleting a present page erases its posts and employees
but spares another page's data; the page itself vanishes. -/
theorem c2_delete_cascade_witness :
    ((delete_page
        ⟨[mkPage "p1" (some "Acme") 0 none 0, mkPage "p2" (some "Bcme") 0 none 0],
         [mkPost "p1" (some "x") none, mkPost "p2" (some "y") none],
         [mkEmp (some "p1") "A", mkEmp (some "p2") "B"], []⟩ "p1").1.pages
      = [mkPage "p2" (some "Bcme") 0 none 0])
    ∧ (mkPost "p2" (some "y") none) ∈
        (delete_page
          ⟨[mkPage "p1" (some "Acme") 0 none 0, mkPage "p2" (some "Bcme") 0 none 0],
           [mkPost "p1" (some "x") none, mkPost "p2" (some "y") none],
           [mkEmp (some "p1") "A", mkEmp (some "p2") "B"], []⟩ "p1").1.posts := by
  have h := (c2_delete_cascade
    ⟨[mkPage "p1" (some "Acme") 0 none 0, mkPage "p2" (some "Bcme") 0 none 0],
     [mkPost "p1" (some "x") none, mkPost "p2" (some "y") none],
     [mkEmp (some "p1") "A", mkEmp (some "p2") "B"], []⟩ "p1"
    (by decide)).2 (mkPage "p1" (some "Acme") 0 none 0) rfl
  refine ⟨?_, ?_⟩
  · rw [h.2.1]; rfl
  · exact h.2.2.2.2.1 (mkPost "p2" (some "y") none) (by decide) (by decide)

/-! ### Claim C5 -/

/-- C5 counterexample.  The claim states that `searchPages` returns
exactly the pages whose name contains the given string as a
case-insensitive *substring*.  The code passes the raw string to
MongoDB as a `$regex` pattern: filtering on `name="."` returns the page
named `"abc"` although `"."` is not a substring of `"abc"`. -/
theorem c5_counterexample :
    ((get_pages_with_filters
        ⟨[mkPage "p1" (some "abc") 0 none 0], [], [], []⟩
        none none (some ".") none 1 10).1
      = [mkPage "p1" (some "abc") 0 none 0])
    ∧ containsCI "." "abc" = false :=
  ⟨rfl, rfl⟩

/-- C5 (amended): a page is returned (with pagination wide enough to
return every match) iff it is stored and passes the conjunction of the
optional filters — inclusive `[min_followers, max_followers]` range and
unanchored case-insensitive *regex* match of `name`/`industry` (an
empty filter string applies no constraint). -/
theorem c5_search_filters (s : Store) (mn mx : Option Int)
    (nm ind : Option String) (p : PageDoc) :
    p ∈ (get_pages_with_filters s mn mx nm ind 1 s.pages.length).1
      ↔ p ∈ s.pages
        ∧ (∀ v, mn = some v → v ≤ p.followers_count)
        ∧ (∀ v, mx = some v → p.followers_count ≤ v)
        ∧ (∀ pat, nm = some pat → pat ≠ "" →
            ∃ x, p.name = some x ∧ mongoRegexI pat x = true)
        ∧ (∀ pat, ind = some pat → pat ≠ "" →
            ∃ x, p.industry = some x ∧ mongoRegexI pat x = true) := by
  have hfull : (get_pages_with_filters s mn mx nm ind 1 s.pages.length).1
      = s.pages.filter (pageMatchesQuery mn mx nm ind) := by
    simp only [get_pages_with_filters, Nat.sub_self, Nat.zero_mul,
      List.drop_zero]
    exact List.take_of_length_le (List.length_filter_le _ _)
  rw [hfull, List.mem_filter]
  constructor
  · rintro ⟨hmem, hq⟩
    simp only [pageMatchesQuery, Bool.and_eq_true] at hq
    obtain ⟨⟨⟨h1, h2⟩, h3⟩, h4⟩ := hq
    refine ⟨hmem, ?_, ?_, ?_, ?_⟩
    · intro v hv; rw [hv] at h1; exact of_decide_eq_true h1
    · intro v hv; rw [hv] at h2; exact of_decide_eq_true h2
    · intro pat hpat hne
      rw [hpat] at h3
      have h3' : (if (pat == "") = true then true
          else match p.name with
               | some x => mongoRegexI pat x
               | none => false) = true := h3
      rw [if_neg (by simpa using hne)] at h3'
      cases hx : p.name with
      | none => rw [hx] at h3'; simp at h3'
      | some x => rw [hx] at h3'; exact ⟨x, rfl, h3'⟩
    · intro pat hpat hne
      rw [hpat] at h4
      have h4' : (if (pat == "") = true then true
          else match p.industry with
               | some x => mongoRegexI pat x
               | none => false) = true := h4
      rw [if_neg (by simpa using hne)] at h4'
      cases hx : p.industry with
      | none => rw [hx] at h4'; simp at h4'
      | some x => rw [hx] at h4'; exact ⟨x, rfl, h4'⟩
  · rintro ⟨hmem, h1, h2, h3, h4⟩
    refine ⟨hmem, ?_⟩
    simp only [pageMatchesQuery, Bool.and_eq_true]
    refine ⟨⟨⟨?_, ?_⟩, ?_⟩, ?_⟩
    · cases mn with
      | none => rfl
      | some v => exact decide_eq_true (h1 v rfl)
    · cases mx with
      | none => rfl
      | some v => exact decide_eq_true (h2 v rfl)
    · cases nm with
      | none => rfl
      | some pat =>
        show (if (pat == "") = true then true
            else match p.name with
                 | some x => mongoRegexI pat x
                 | none => false) = true
        by_cases hpe : pat = ""
        · rw [if_pos (by simpa using hpe)]
        · rw [if_neg (by simpa using hpe)]
          obtain ⟨x, hx, hrx⟩ := h3 pat rfl hpe
          rw [hx]; exact hrx
    · cases ind with
      | none => rfl
      | some pat =>
        show (if (pat == "") = true then true
            else match p.industry with
                 | some x => mongoRegexI pat x
                 | none => false) = true
        by_cases hpe : pat = ""
        · rw [if_pos (by simpa using hpe)]
        · rw [if_neg (by simpa using hpe)]
          obtain ⟨x, hx, hrx⟩ := h4 pat rfl hpe
          rw [hx]; exact hrx

/-- C5 witness: a followers range plus a name filter returns exactly the
page inside the range whose name matches the pattern. -/
theorem c5_search_filters_witness :
    mkPage "p1" (some "Tech Corp") 30000 (some "Software") 0
      ∈ (get_pages_with_filters
          ⟨[mkPage "p1" (some "Tech Corp") 30000 (some "Software") 0,
            mkPage "p2" (some "Other") 50000 none 0], [], [], []⟩
          (some 20000) (some 40000) (some "tech") none 1 2).1 := by
  refine (c5_search_filters
    ⟨[mkPage "p1" (some "Tech Corp") 30000 (some "Software") 0,
      mkPage "p2" (some "Other") 50000 none 0], [], [], []⟩
    (some 20000) (some 40000) (some "tech") none
    (mkPage "p1" (some "Tech Corp") 30000 (some "Software") 0)).mpr ?_
  refine ⟨by decide, ?_, ?_, ?_, ?_⟩
  · intro v hv; cases hv; decide
  · intro v hv; cases hv; decide
  · intro pat hpat hne; cases hpat; exact ⟨"Tech Corp", rfl, by decide⟩
  · intro pat hpat; cases hpat

/-! ### Claim C6 -/

/-- `totalPagesOf` computes exactly `⌈total / page_size⌉` (0 for an
empty result): for a positive total it is the unique `q` with
`total ≤ q * page_size < total + page_size`. -/
theorem totalPagesOf_spec (t ps : Nat) (hps : 1 ≤ ps) :
    (t = 0 → totalPagesOf t ps = 0)
    ∧ (0 < t → t ≤ totalPagesOf t ps * ps
        ∧ totalPagesOf t ps * ps < t + ps) := by
  constructor
  · intro h; simp [totalPagesOf, h]
  · intro ht
    have hq : totalPagesOf t ps = (t + ps - 1) / ps := by
      simp [totalPagesOf, ht]
    rw [hq]
    have hdm := Nat.div_add_mod (t + ps - 1) ps
    have hlt : (t + ps - 1) % ps < ps := Nat.mod_lt _ (by omega)
    have hcomm : (t + ps - 1) / ps * ps = ps * ((t + ps - 1) / ps) :=
      Nat.mul_comm _ _
    have hle := Nat.div_mul_le_self (t + ps - 1) ps
    exact ⟨by omega, by omega⟩

/-- C6: both paginated queries are 1-indexed with
`skip = (page-1)*page_size`: the items are that slice of the matching
records in store order (hence at most `page_size` of them), `total`
counts every matching record, and `total_pages` is `⌈total/page_size⌉`,
0 when `total = 0`. -/
theorem c6_pagination (s : Store) (mn mx : Option Int)
    (nm ind : Option String) (pid : String) (page ps : Nat)
    (hpage : 1 ≤ page) (hps : 1 ≤ ps) :
    ((search_pages s mn mx nm ind page ps).items
      = ((s.pages.filter (pageMatchesQuery mn mx nm ind)).drop
          ((page - 1) * ps)).take ps)
    ∧ (search_pages s mn mx nm ind page ps).items.length ≤ ps
    ∧ (search_pages s mn mx nm ind page ps).total
        = (s.pages.filter (pageMatchesQuery mn mx nm ind)).length
    ∧ ((search_pages s mn mx nm ind page ps).total = 0 →
        (search_pages s mn mx nm ind page ps).total_pages = 0)
    ∧ (0 < (search_pages s mn mx nm ind page ps).total →
        (search_pages s mn mx nm ind page ps).total
            ≤ (search_pages s mn mx nm ind page ps).total_pages * ps
          ∧ (search_pages s mn mx nm ind page ps).total_pages * ps
            < (search_pages s mn mx nm ind page ps).total + ps)
    ∧ (∀ p0, get_page_by_id s pid = some p0 →
        ∃ re, get_page_employees s pid page ps = .ok re
          ∧ re.items = ((s.employees.filter
                (fun e => e.page_id == some pid)).drop
              ((page - 1) * ps)).take ps
          ∧ re.items.length ≤ ps
          ∧ re.total = (s.employees.filter
              (fun e => e.page_id == some pid)).length
          ∧ (re.total = 0 → re.total_pages = 0)
          ∧ (0 < re.total → re.total ≤ re.total_pages * ps
              ∧ re.total_pages * ps < re.total + ps)) := by
  refine ⟨rfl, ?_, rfl, ?_, ?_, ?_⟩
  · exact List.length_take_le _ _
  · intro h
    exact (totalPagesOf_spec _ ps hps).1 h
  · intro h
    exact (totalPagesOf_spec _ ps hps).2 h
  · intro p0 hp0
    have hroute : get_page_employees s pid page ps
        = .ok ⟨((s.employees.filter (fun e => e.page_id == some pid)).drop
              ((page - 1) * ps)).take ps,
            (s.employees.filter (fun e => e.page_id == some pid)).length,
            page, ps,
            totalPagesOf
              (s.employees.filter (fun e => e.page_id == some pid)).length
              ps⟩ := by
      simp [get_page_employees, hp0, get_employees_by_page]
    refine ⟨_, hroute, rfl, List.length_take_le _ _, rfl, ?_, ?_⟩
    · intro h
      exact (totalPagesOf_spec _ ps hps).1 h
    · intro h
      exact (totalPagesOf_spec _ ps hps).2 h

/-- The 25-page store used by the C6 witness. -/
def store25 : Store :=
  ⟨List.replicate 25 (mkPage "p" (some "Acme") 0 none 0), [], [], []⟩

/-- C6 witness: `page=1, page_size=10` over 25 matching pages yields
`total=25`, `total_pages=3` and exactly 10 items. -/
theorem c6_pagination_witness :
    (search_pages store25 none none none none 1 10).items.length ≤ 10
    ∧ (search_pages store25 none none none none 1 10).total = 25
    ∧ (search_pages store25 none none none none 1 10).total_pages = 3
    ∧ (search_pages store25 none none none none 1 10).items.length = 10 := by
  have h := c6_pagination store25 none none none none "p" 1 10
    (by decide) (by decide)
  exact ⟨h.2.1, by decide, by decide, by decide⟩

/-! ### Claim C9 -/

/-- The descending `posted_at` order is transitive. -/
theorem postedAtLe_trans (a b c : Option String) :
    postedAtLe a b = true → postedAtLe b c = true → postedAtLe a c = true := by
  cases a <;> cases b <;> cases c <;> simp [postedAtLe] <;>
    exact fun h1 h2 => le_trans h1 h2

/-- The descending `posted_at` order is total. -/
theorem postedAtLe_total (a b : Option String) :
    (postedAtLe a b || postedAtLe b a) = true := by
  cases a <;> cases b <;> simp [postedAtLe]
  exact le_total _ _

/-- C9: the page-detail assembly carries the page fields, at most 15
posts sorted by `posted_at` descending, at most 50 employees (the first
page of them), and total post/employee counts taken from the store
(which may exceed the returned list lengths); a false include flag
empties the corresponding list.  The final conjunct ties the assembly
to the GET endpoint when the page is served from the store. -/
theorem c9_page_detail_assembly (s : Store) (pid : String) (p : PageDoc)
    (ip ie : Bool) :
    (assembleDetails s pid p ip ie).page = p
    ∧ (assembleDetails s pid p ip ie).posts.length ≤ 15
    ∧ List.Pairwise (fun a b => postedAtLe b.posted_at a.posted_at = true)
        (assembleDetails s pid p ip ie).posts
    ∧ (assembleDetails s pid p ip ie).employees.length ≤ 50
    ∧ (ie = true → (assembleDetails s pid p ip ie).employees
        = (s.employees.filter (fun e => e.page_id == some pid)).take 50)
    ∧ (ip = false → (assembleDetails s pid p ip ie).posts = [])
    ∧ (ie = false → (assembleDetails s pid p ip ie).employees = [])
    ∧ (assembleDetails s pid p ip ie).total_posts
        = (s.posts.filter (fun q => q.page_id == pid)).length
    ∧ (assembleDetails s pid p ip ie).total_employees
        = (s.employees.filter (fun e => e.page_id == some pid)).length
    ∧ (∀ env now, get_page_by_id s pid = some p →
        get_page_details env s pid ip ie false now
          = (s, .ok (assembleDetails s pid p ip ie))) := by
  have hsorted : List.Pairwise
      (fun a b : PostDoc => postedAtLe b.posted_at a.posted_at = true)
      ((s.posts.filter (fun q => q.page_id == pid)).mergeSort
        (fun a b => postedAtLe b.posted_at a.posted_at)) := by
    exact @List.sorted_mergeSort PostDoc
      (fun a b => postedAtLe b.posted_at a.posted_at)
      (fun a b c hab hbc => postedAtLe_trans _ _ _ hbc hab)
      (fun a b => postedAtLe_total _ _)
      (s.posts.filter (fun q => q.page_id == pid))
  refine ⟨rfl, ?_, ?_, ?_, ?_, ?_, ?_, rfl, rfl, ?_⟩
  · cases ip <;>
      simp [assembleDetails, get_posts_by_page, List.length_take_le]
  · cases ip with
    | false => simp [assembleDetails]
    | true =>
      simp only [assembleDetails, get_posts_by_page, if_true]
      exact hsorted.sublist (List.take_sublist _ _)
  · cases ie <;>
      simp [assembleDetails, get_employees_by_page, List.length_take_le]
  · intro h; subst h
    simp [assembleDetails, get_employees_by_page]
  · intro h; subst h; simp [assembleDetails]
  · intro h; subst h; simp [assembleDetails]
  · intro env now hp
    simp [get_page_details, hp]

/-- The store used by the C9 witness: page "acme" with 3 posts and 60
stored employees. -/
def storeAcme : Store :=
  ⟨[mkPage "acme" (some "Acme") 0 none 0],
   [mkPost "acme" (some "l1") (some "1d"),
    mkPost "acme" (some "l2") (some "3d"),
    mkPost "acme" (some "l3") (some "2d")],
   List.replicate 60 (mkEmp (some "acme") "E"), []⟩

/-- C9 witness: with 60 stored employees the assembly returns 50 of them
while `total_employees` reports 60, and the 3 posts come back sorted by
`posted_at` descending. -/
theorem c9_page_detail_assembly_witness :
    (assembleDetails storeAcme "acme" (mkPage "acme" (some "Acme") 0 none 0)
        true true).employees.length ≤ 50
    ∧ (assembleDetails storeAcme "acme" (mkPage "acme" (some "Acme") 0 none 0)
        true true).employees.length = 50
    ∧ (assembleDetails storeAcme "acme" (mkPage "acme" (some "Acme") 0 none 0)
        true true).total_employees = 60
    ∧ (assembleDetails storeAcme "acme" (mkPage "acme" (some "Acme") 0 none 0)
        true true).posts
      = [mkPost "acme" (some "l2") (some "3d"),
         mkPost "acme" (some "l3") (some "2d"),
         mkPost "acme" (some "l1") (some "1d")] := by
  have h := c9_page_detail_assembly storeAcme "acme"
    (mkPage "acme" (some "Acme") 0 none 0) true true
  refine ⟨h.2.2.2.1, by decide, by decide, ?_⟩
  simp +decide [assembleDetails, get_posts_by_page, storeAcme,
    List.mergeSort, List.splitInTwo, List.merge, List.splitAt,
    List.splitAt.go, mkPost, mkPage, postedAtLe]

/-! ### Claim C4 -/

/-- `update_one` never changes the collection size. -/
theorem length_postsUpdateOne (l : List PostDoc) (lid : String)
    (d : PostDoc) : (postsUpdateOne l lid d).length = l.length := by
  induction l with
  | nil => rfl
  | cons q qs ih =>
    by_cases hq : (q.linkedin_post_id == some lid) = true
    · simp [postsUpdateOne, hq]
    · simp only [postsUpdateOne, hq, Bool.false_eq_true, if_false,
        List.length_cons, ih]

/-- When exactly one document carries the id, `update_one` leaves
exactly the new payload under that id. -/
theorem filter_postsUpdateOne_match (l : List PostDoc) (lid : String)
    (d : PostDoc) (hd : (d.linkedin_post_id == some lid) = true)
    (h : (l.filter (fun q => q.linkedin_post_id == some lid)).length = 1) :
    (postsUpdateOne l lid d).filter
      (fun q => q.linkedin_post_id == some lid) = [d] := by
  induction l with
  | nil => simp at h
  | cons q qs ih =>
    by_cases hq : (q.linkedin_post_id == some lid) = true
    · have hnil : qs.filter (fun q => q.linkedin_post_id == some lid) = [] := by
        simp only [List.filter_cons, hq, if_true, List.length_cons] at h
        exact List.length_eq_zero.mp (by omega)
      simp [postsUpdateOne, hq, List.filter_cons, hd, hnil]
    · have h' : (qs.filter (fun q => q.linkedin_post_id == some lid)).length
          = 1 := by
        simpa [List.filter_cons, hq] using h
      simp only [postsUpdateOne, hq, Bool.false_eq_true, if_false,
        List.filter_cons, ih h']

/-- `update_one` with a payload carrying the id leaves the documents
under every other id untouched. -/
theorem filter_not_postsUpdateOne (l : List PostDoc) (lid : String)
    (d : PostDoc) (hd : (d.linkedin_post_id == some lid) = true) :
    (postsUpdateOne l lid d).filter
        (fun q => !(q.linkedin_post_id == some lid))
      = l.filter (fun q => !(q.linkedin_post_id == some lid)) := by
  induction l with
  | nil => rfl
  | cons q qs ih =>
    by_cases hq : (q.linkedin_post_id == some lid) = true
    · simp [postsUpdateOne, hq, List.filter_cons, hd]
    · simp only [postsUpdateOne, hq, Bool.false_eq_true, if_false,
        List.filter_cons, Bool.not_false, if_true, ih]

/-- Replacing the first match with itself when the tail has no match is
the identity; used for appended-then-updated documents. -/
theorem postsUpdateOne_append_self (xs : List PostDoc) (lid : String)
    (p : PostDoc) (hp : (p.linkedin_post_id == some lid) = true)
    (hxs : ∀ q ∈ xs, ¬((q.linkedin_post_id == some lid) = true)) :
    postsUpdateOne (xs ++ [p]) lid p = xs ++ [p] := by
  induction xs with
  | nil => simp [postsUpdateOne, hp]
  | cons q qs ih =>
    have hq : (q.linkedin_post_id == some lid) = false := by
      simpa using hxs q (List.mem_cons_self q qs)
    simp only [List.cons_append, postsUpdateOne, hq, Bool.false_eq_true,
      if_false, List.cons.injEq, true_and]
    exact ih fun x hx => hxs x (List.mem_cons_of_mem q hx)

/-- C4: `create_posts` upserts by `linkedin_post_id`.  A record whose id
key is missing is skipped without aborting the batch; a record with a
fresh id is appended and counted; a record whose id is already stored
(once) is updated in place — the stored document under that id becomes
the new payload, every other document survives unchanged, the
collection size is unchanged and the returned count is 0; re-ingesting
a freshly inserted record therefore leaves exactly one stored copy and
returns 0. -/
theorem c4_upsert_posts (s : Store) (p bad : PostDoc)
    (rest : List PostDoc) (lid : String)
    (hp : p.linkedin_post_id = some lid) :
    (bad.linkedin_post_id = none →
      create_posts s (bad :: rest) = create_posts s rest)
    ∧ ((∀ q ∈ s.posts, q.linkedin_post_id ≠ some lid) →
        create_posts s [p] = ({ s with posts := s.posts ++ [p] }, 1))
    ∧ ((s.posts.filter (fun q => q.linkedin_post_id == some lid)).length = 1 →
        (create_posts s [p]).2 = 0
        ∧ (create_posts s [p]).1.posts.filter
            (fun q => q.linkedin_post_id == some lid) = [p]
        ∧ (create_posts s [p]).1.posts.filter
            (fun q => !(q.linkedin_post_id == some lid))
          = s.posts.filter (fun q => !(q.linkedin_post_id == some lid))
        ∧ (create_posts s [p]).1.posts.length = s.posts.length)
    ∧ ((∀ q ∈ s.posts, q.linkedin_post_id ≠ some lid) →
        (create_posts (create_posts s [p]).1 [p]).2 = 0
        ∧ (create_posts (create_posts s [p]).1 [p]).1.posts
            = s.posts ++ [p]) := by
  have hpb : (p.linkedin_post_id == some lid) = true := by
    rw [hp]; exact beq_self_eq_true _
  refine ⟨?_, ?_, ?_, ?_⟩
  · intro hbad
    simp [create_posts, createPostsFold, createPostsStep, hbad]
  · intro habs
    have hfind : postsFindOne s.posts lid = none := by
      rw [postsFindOne, List.find?_eq_none]
      intro q hq
      simpa using habs q hq
    simp [create_posts, createPostsFold, createPostsStep, hp, hfind]
  · intro hone
    have hfind : ∃ q, postsFindOne s.posts lid = some q := by
      cases hf : postsFindOne s.posts lid with
      | some q => exact ⟨q, rfl⟩
      | none =>
        rw [postsFindOne, List.find?_eq_none] at hf
        have : s.posts.filter (fun q => q.linkedin_post_id == some lid)
            = [] := by
          rw [List.filter_eq_nil_iff]
          exact hf
        rw [this] at hone
        simp at hone
    obtain ⟨q, hq⟩ := hfind
    have hstep : create_posts s [p]
        = ({ s with posts := postsUpdateOne s.posts lid p }, 0) := by
      simp [create_posts, createPostsFold, createPostsStep, hp, hq]
    rw [hstep]
    exact ⟨rfl, filter_postsUpdateOne_match s.posts lid p hpb hone,
      filter_not_postsUpdateOne s.posts lid p hpb,
      length_postsUpdateOne s.posts lid p⟩
  · intro habs
    have hfind : postsFindOne s.posts lid = none := by
      rw [postsFindOne, List.find?_eq_none]
      intro q hq
      simpa using habs q hq
    have hfirst : create_posts s [p]
        = ({ s with posts := s.posts ++ [p] }, 1) := by
      simp [create_posts, createPostsFold, createPostsStep, hp, hfind]
    rw [hfirst]
    have hfind2 : postsFindOne (s.posts ++ [p]) lid = some p := by
      rw [postsFindOne, List.find?_append]
      rw [postsFindOne] at hfind
      rw [hfind]
      simp [hpb]
    have hupd : postsUpdateOne (s.posts ++ [p]) lid p = s.posts ++ [p] :=
      postsUpdateOne_append_self s.posts lid p hpb
        (fun q hqm => by simpa using habs q hqm)
    constructor
    · simp [create_posts, createPostsFold, createPostsStep, hp, hfind2]
    · simp [create_posts, createPostsFold, createPostsStep, hp, hfind2, hupd]

/-- C4 witness: upserting a post whose `linkedin_post_id` is already
stored updates in place, keeps one copy and returns 0. -/
theorem c4_upsert_posts_witness :
    ((create_posts ⟨[], [mkPost "acme" (some "x") (some "1d")], [], []⟩
        [mkPost "acme" (some "x") (some "2d")]).2 = 0)
    ∧ (create_posts ⟨[], [mkPost "acme" (some "x") (some "1d")], [], []⟩
        [mkPost "acme" (some "x") (some "2d")]).1.posts.filter
        (fun q => q.linkedin_post_id == some "x")
      = [mkPost "acme" (some "x") (some "2d")] := by
  have h := (c4_upsert_posts
    ⟨[], [mkPost "acme" (some "x") (some "1d")], [], []⟩
    (mkPost "acme" (some "x") (some "2d"))
    (mkPost "acme" none none) [] "x" rfl).2.2.1 (by decide)
  exact ⟨h.1, h.2.1⟩

/-! ### Claim C1 -/

/-- C1: when the scraped company profile has no name, both scraping
endpoints commit no Page record (the store is returned unchanged — the
explicit 404 is raised before `create_page` runs), BUT the operation
does not surface a Not-Found (404) condition: the `except Exception`
clause catches the `HTTPException` (a subclass of `Exception`) and
re-raises it as a 500, so the claimed 404 is observable nowhere. -/
theorem c1_noname_store_unchanged_but_500 (env : ScrapeEnv) (s : Store)
    (pid : String) (ip ie fs spn spe : Bool) (now : Nat)
    (hname : nameFalsy env.company_data = true)
    (hlogin : (!env.is_logged_in && !env.login_ok) = false)
    (habsent : get_page_by_id s pid = none) :
    ((get_page_details env s pid ip ie fs now).1 = s
      ∧ (get_page_details env s pid ip ie fs now).2
          = .error (wrapScrapingError
              ⟨404, "Page " ++ pid ++ " not found on LinkedIn"⟩))
    ∧ ((scrape_page_now env s pid spn spe now).1 = s
      ∧ (scrape_page_now env s pid spn spe now).2
          = .error (wrapScrapingError
              ⟨404, "Page " ++ pid ++ " not found on LinkedIn"⟩))
    ∧ (wrapScrapingError
        ⟨404, "Page " ++ pid ++ " not found on LinkedIn"⟩).status = 500 := by
  refine ⟨?_, ?_, rfl⟩
  · constructor <;>
      simp [get_page_details, habsent, scrapeAndStore, hlogin, hname,
        Except.mapError]
  · constructor <;>
      simp [scrape_page_now, scrapeNowInner, hlogin, hname,
        Except.mapError]

/-- C1 witness: a concrete no-name scrape of absent page "ghost" leaves
the store empty and yields status 500, not the claimed 404. -/
theorem c1_noname_store_unchanged_but_500_witness :
    ((get_page_details ⟨true, true, mkPageData "ghost" none 0 none, [], []⟩
        ⟨[], [], [], []⟩ "ghost" true true false 0).1 = ⟨[], [], [], []⟩)
    ∧ ((get_page_details ⟨true, true, mkPageData "ghost" none 0 none, [], []⟩
        ⟨[], [], [], []⟩ "ghost" true true false 0).2
      = .error ⟨500, "Scraping error: 404: Page ghost not found on LinkedIn"⟩) := by
  have h := c1_noname_store_unchanged_but_500
    ⟨true, true, mkPageData "ghost" none 0 none, [], []⟩
    ⟨[], [], [], []⟩ "ghost" true true false true true 0
    (by decide) (by decide) rfl
  refine ⟨h.1.1, ?_⟩
  rw [h.1.2]
  rfl

/-! ### Claim C7 — list-level idempotency lemmas -/

/-- Replacing the first match with the very document `find_one` returns
changes nothing. -/
theorem pagesUpdateOne_of_find_self (l : List PageDoc) (pid : String)
    (d : PageDoc) (h : pagesFindOne l pid = some d) :
    pagesUpdateOne l pid d = l := by
  induction l with
  | nil => simp [pagesFindOne] at h
  | cons q qs ih =>
    by_cases hq : (q.page_id == pid) = true
    · rw [pagesFindOne,
        List.find?_cons_of_pos (p := fun x => x.page_id == pid) qs hq] at h
      cases h
      simp [pagesUpdateOne, hq]
    · rw [pagesFindOne,
        List.find?_cons_of_neg (p := fun x => x.page_id == pid) qs hq] at h
      simp only [pagesUpdateOne, hq, Bool.false_eq_true, if_false,
        List.cons.injEq, true_and]
      exact ih h

/-- After `update_one` with a matching payload, `find_one` returns that
payload (provided some match existed). -/
theorem pagesFindOne_updateOne_self (l : List PageDoc) (pid : String)
    (d : PageDoc) (hd : (d.page_id == pid) = true)
    (hex : pagesFindOne l pid ≠ none) :
    pagesFindOne (pagesUpdateOne l pid d) pid = some d := by
  induction l with
  | nil => simp [pagesFindOne] at hex
  | cons q qs ih =>
    by_cases hq : (q.page_id == pid) = true
    · simp only [pagesUpdateOne, hq, if_true]
      rw [pagesFindOne,
        List.find?_cons_of_pos (p := fun x => x.page_id == pid) qs hd]
    · rw [pagesFindOne,
        List.find?_cons_of_neg (p := fun x => x.page_id == pid) qs hq] at hex
      simp only [pagesUpdateOne, hq, Bool.false_eq_true, if_false]
      rw [pagesFindOne,
        List.find?_cons_of_neg (p := fun x => x.page_id == pid)
          (pagesUpdateOne qs pid d) hq]
      exact ih hex

/-- After an upsert, `find_one` on the document's `page_id` returns the
document. -/
theorem pagesFindOne_upsert (l : List PageDoc) (doc : PageDoc) :
    pagesFindOne (pagesUpsert l doc) doc.page_id = some doc := by
  unfold pagesUpsert
  cases hf : pagesFindOne l doc.page_id with
  | some q =>
    exact pagesFindOne_updateOne_self l doc.page_id doc
      (beq_self_eq_true _) (by rw [hf]; exact Option.some_ne_none q)
  | none =>
    rw [pagesFindOne] at hf ⊢
    rw [List.find?_append, hf]
    simp

/-- The page upsert is idempotent. -/
theorem pagesUpsert_idem (l : List PageDoc) (doc : PageDoc) :
    pagesUpsert (pagesUpsert l doc) doc = pagesUpsert l doc := by
  have hf := pagesFindOne_upsert l doc
  nth_rewrite 1 [pagesUpsert]
  rw [hf]
  exact pagesUpdateOne_of_find_self _ _ _ hf

/-- The employee replace is idempotent whenever every input record
carries the same present, non-empty `page_id` (as every record produced
by `scrape_company_employees` does — it stamps `page_id = company_id`
on each one). -/
theorem employeesReplaceList_idem (l : List EmployeeDoc)
    (es : List EmployeeDoc)
    (hes : es = [] ∨ ∃ pid, pid ≠ "" ∧ ∀ e ∈ es, e.page_id = some pid) :
    employeesReplaceList (employeesReplaceList l es) es
      = employeesReplaceList l es := by
  rcases hes with rfl | ⟨pid, hpid, hall⟩
  · rfl
  cases es with
  | nil => rfl
  | cons e0 rest =>
    have h0 : e0.page_id = some pid := hall e0 (List.mem_cons_self e0 rest)
    have hne : (pid == "") = false := by simpa using hpid
    simp only [employeesReplaceList, h0, hne, Bool.false_eq_true, if_false]
    have hdel : employeesDeleteMany
        (employeesDeleteMany l pid ++ e0 :: rest) pid
        = employeesDeleteMany l pid := by
      rw [employeesDeleteMany, List.filter_append]
      have h1 : (employeesDeleteMany l pid).filter
          (fun e => !(e.page_id == some pid)) = employeesDeleteMany l pid := by
        rw [List.filter_eq_self]
        intro e he
        rw [employeesDeleteMany] at he
        exact (List.mem_filter.mp he).2
      have h2 : (e0 :: rest).filter (fun e => !(e.page_id == some pid)) = [] := by
        rw [List.filter_eq_nil_iff]
        intro e he
        simp [hall e he]
      rw [h1, h2, List.append_nil]
    rw [hdel]

/-- Replacing the first matching post with the very document `find_one`
returns changes nothing. -/
theorem postsUpdateOne_of_find_self (l : List PostDoc) (lid : String)
    (p : PostDoc) (h : postsFindOne l lid = some p) :
    postsUpdateOne l lid p = l := by
  induction l with
  | nil => simp [postsFindOne] at h
  | cons q qs ih =>
    by_cases hq : (q.linkedin_post_id == some lid) = true
    · rw [postsFindOne,
        List.find?_cons_of_pos (p := fun x => x.linkedin_post_id == some lid)
          qs hq] at h
      cases h
      simp [postsUpdateOne, hq]
    · rw [postsFindOne,
        List.find?_cons_of_neg (p := fun x => x.linkedin_post_id == some lid)
          qs hq] at h
      simp only [postsUpdateOne, hq, Bool.false_eq_true, if_false,
        List.cons.injEq, true_and]
      exact ih h

/-- After `update_one` with a matching payload, `find_one` on that id
returns the payload (provided some match existed). -/
theorem postsFindOne_updateOne_self (l : List PostDoc) (lid : String)
    (p : PostDoc) (hp : (p.linkedin_post_id == some lid) = true)
    (hex : postsFindOne l lid ≠ none) :
    postsFindOne (postsUpdateOne l lid p) lid = some p := by
  induction l with
  | nil => simp [postsFindOne] at hex
  | cons q qs ih =>
    by_cases hq : (q.linkedin_post_id == some lid) = true
    · simp only [postsUpdateOne, hq, if_true]
      rw [postsFindOne,
        List.find?_cons_of_pos (p := fun x => x.linkedin_post_id == some lid)
          qs hp]
    · rw [postsFindOne,
        List.find?_cons_of_neg (p := fun x => x.linkedin_post_id == some lid)
          qs hq] at hex
      simp only [postsUpdateOne, hq, Bool.false_eq_true, if_false]
      rw [postsFindOne,
        List.find?_cons_of_neg (p := fun x => x.linkedin_post_id == some lid)
          (postsUpdateOne qs lid p) hq]
      exact ih hex

/-- `update_one` under a different id does not move the first match of
`lid`. -/
theorem postsFindOne_updateOne_ne (l : List PostDoc) (lid2 : String)
    (q : PostDoc) (lid : String) (p : PostDoc)
    (hq : q.linkedin_post_id = some lid2) (hne : lid2 ≠ lid)
    (h : postsFindOne l lid = some p) :
    postsFindOne (postsUpdateOne l lid2 q) lid = some p := by
  have hqn : (q.linkedin_post_id == some lid) = false := by
    rw [hq]
    simpa using hne
  induction l with
  | nil => simp [postsFindOne] at h
  | cons x xs ih =>
    by_cases hx2 : (x.linkedin_post_id == some lid2) = true
    · have hxn : (x.linkedin_post_id == some lid) = false := by
        have : x.linkedin_post_id = some lid2 := by simpa using hx2
        rw [this]
        simpa using hne
      rw [postsFindOne,
        List.find?_cons_of_neg (p := fun y => y.linkedin_post_id == some lid)
          xs (by simp [hxn])] at h
      simp only [postsUpdateOne, hx2, if_true]
      rw [postsFindOne,
        List.find?_cons_of_neg (p := fun y => y.linkedin_post_id == some lid)
          xs (by simp [hqn])]
      exact h
    · simp only [postsUpdateOne, hx2, Bool.false_eq_true, if_false]
      by_cases hxl : (x.linkedin_post_id == some lid) = true
      · rw [postsFindOne,
          List.find?_cons_of_pos (p := fun y => y.linkedin_post_id == some lid)
            xs hxl] at h
        rw [postsFindOne,
          List.find?_cons_of_pos (p := fun y => y.linkedin_post_id == some lid)
            (postsUpdateOne xs lid2 q) hxl]
        exact h
      · rw [postsFindOne,
          List.find?_cons_of_neg (p := fun y => y.linkedin_post_id == some lid)
            xs hxl] at h
        rw [postsFindOne,
          List.find?_cons_of_neg (p := fun y => y.linkedin_post_id == some lid)
            (postsUpdateOne xs lid2 q) hxl]
        exact ih h

/-- One loop iteration over a record of a different id (or with the id
key missing) does not move the first match of `lid`. -/
theorem createPostsStep_preserves_find (l : List PostDoc) (c : Nat)
    (q : PostDoc) (lid : String) (p : PostDoc)
    (hq : q.linkedin_post_id ≠ some lid)
    (h : postsFindOne l lid = some p) :
    postsFindOne (createPostsStep l c q).1 lid = some p := by
  cases hql : q.linkedin_post_id with
  | none => simpa [createPostsStep, hql] using h
  | some lid2 =>
    have hne : lid2 ≠ lid := fun he => hq (by rw [hql, he])
    cases hf : postsFindOne l lid2 with
    | some r =>
      simpa [createPostsStep, hql, hf] using
        postsFindOne_updateOne_ne l lid2 q lid p hql hne h
    | none =>
      simp only [createPostsStep, hql, hf]
      rw [postsFindOne, List.find?_append]
      rw [postsFindOne] at h
      rw [h]
      rfl

/-- The list component of the `create_posts` loop ignores the running
count. -/
theorem createPostsFoldAux_list_indep (ps : List PostDoc)
    (l : List PostDoc) (c : Nat) :
    (ps.foldl (fun acc post => createPostsStep acc.1 acc.2 post) (l, c)).1
      = (createPostsFold l ps).1 := by
  induction ps generalizing l c with
  | nil => rfl
  | cons p rest ih =>
    have hstep : (createPostsStep l c p).1 = (createPostsStep l 0 p).1 := by
      cases hp : p.linkedin_post_id with
      | none => simp [createPostsStep, hp]
      | some lid =>
        cases hf : postsFindOne l lid <;> simp [createPostsStep, hp, hf]
    calc ((p :: rest).foldl
            (fun acc post => createPostsStep acc.1 acc.2 post) (l, c)).1
        = (rest.foldl (fun acc post => createPostsStep acc.1 acc.2 post)
            (createPostsStep l c p)).1 := rfl
      _ = (createPostsFold (createPostsStep l c p).1 rest).1 :=
          ih (createPostsStep l c p).1 (createPostsStep l c p).2
      _ = (createPostsFold (createPostsStep l 0 p).1 rest).1 := by rw [hstep]
      _ = (rest.foldl (fun acc post => createPostsStep acc.1 acc.2 post)
            (createPostsStep l 0 p)).1 :=
          (ih (createPostsStep l 0 p).1 (createPostsStep l 0 p).2).symm
      _ = (createPostsFold l (p :: rest)).1 := rfl

/-- A whole loop over records of other ids does not move the first
match of `lid`. -/
theorem createPostsFold_preserves_find (ps : List PostDoc)
    (l : List PostDoc) (c : Nat) (lid : String) (p : PostDoc)
    (hps : ∀ q ∈ ps, q.linkedin_post_id ≠ some lid)
    (h : postsFindOne l lid = some p) :
    postsFindOne
      (ps.foldl (fun acc post => createPostsStep acc.1 acc.2 post) (l, c)).1
      lid = some p := by
  induction ps generalizing l c with
  | nil => exact h
  | cons q rest ih =>
    rw [List.foldl_cons]
    exact ih _ _ (fun x hx => hps x (List.mem_cons_of_mem q hx))
      (createPostsStep_preserves_find l c q lid p
        (hps q (List.mem_cons_self q rest)) h)

/-- After one loop over records whose present ids are pairwise
distinct, `find_one` on each record's id returns that record. -/
theorem createPostsFold_establishes_find (ps : List PostDoc) :
    ∀ (l : List PostDoc),
      (ps.filterMap (fun q => q.linkedin_post_id)).Nodup →
      ∀ p ∈ ps, ∀ lid, p.linkedin_post_id = some lid →
        postsFindOne (createPostsFold l ps).1 lid = some p := by
  induction ps with
  | nil => intro l _ p hp; cases hp
  | cons p0 rest ih =>
    intro l hnd p hp lid hlid
    have hfold : (createPostsFold l (p0 :: rest)).1
        = (rest.foldl (fun acc post => createPostsStep acc.1 acc.2 post)
            (createPostsStep l 0 p0)).1 := rfl
    rw [hfold,
      createPostsFoldAux_list_indep rest (createPostsStep l 0 p0).1
        (createPostsStep l 0 p0).2]
    rcases List.mem_cons.mp hp with rfl | hpr
    · -- the head record: its id is established by its own step and
      -- preserved by the rest (whose ids differ by Nodup)
      have hest : postsFindOne (createPostsStep l 0 p).1 lid = some p := by
        cases hf : postsFindOne l lid with
        | some q =>
          simp only [createPostsStep, hlid, hf]
          exact postsFindOne_updateOne_self l lid p
            (by rw [hlid]; exact beq_self_eq_true _)
            (by rw [hf]; exact Option.some_ne_none q)
        | none =>
          simp only [createPostsStep, hlid, hf]
          rw [postsFindOne, List.find?_append]
          rw [postsFindOne] at hf
          rw [hf]
          simp [hlid]
      have hrest : ∀ q ∈ rest, q.linkedin_post_id ≠ some lid := by
        intro q hq hql
        rw [List.filterMap_cons_some hlid] at hnd
        exact (List.nodup_cons.mp hnd).1
          (List.mem_filterMap.mpr ⟨q, hq, hql⟩)
      rw [← createPostsFoldAux_list_indep rest (createPostsStep l 0 p).1
        (createPostsStep l 0 p).2]
      exact createPostsFold_preserves_find rest _ _ lid p hrest hest
    · -- a record of the tail: induction hypothesis on the tail
      have hnd' : (rest.filterMap (fun q => q.linkedin_post_id)).Nodup := by
        cases h0 : p0.linkedin_post_id with
        | none => rw [List.filterMap_cons_none h0] at hnd; exact hnd
        | some l0 =>
          rw [List.filterMap_cons_some h0] at hnd
          exact (List.nodup_cons.mp hnd).2
      exact ih (createPostsStep l 0 p0).1 hnd' p hpr lid hlid

/-- When `find_one` already returns each input record under its id, the
loop is a no-op returning 0. -/
theorem createPostsFold_fixed (l : List PostDoc) (ps : List PostDoc)
    (h : ∀ p ∈ ps, ∀ lid, p.linkedin_post_id = some lid →
      postsFindOne l lid = some p) :
    createPostsFold l ps = (l, 0) := by
  have aux : ∀ (qs : List PostDoc) (c : Nat),
      (∀ p ∈ qs, ∀ lid, p.linkedin_post_id = some lid →
        postsFindOne l lid = some p) →
      qs.foldl (fun acc post => createPostsStep acc.1 acc.2 post) (l, c)
        = (l, c) := by
    intro qs
    induction qs with
    | nil => intro c _; rfl
    | cons p rest ih =>
      intro c hqs
      have hstep : createPostsStep l c p = (l, c) := by
        cases hp : p.linkedin_post_id with
        | none => simp [createPostsStep, hp]
        | some lid =>
          have hf := hqs p (List.mem_cons_self p rest) lid hp
          simp only [createPostsStep, hp, hf]
          rw [postsUpdateOne_of_find_self l lid p hf]
      rw [List.foldl_cons, hstep]
      exact ih c fun q hq => hqs q (List.mem_cons_of_mem p hq)
  exact aux ps 0 h

/-- The posts loop is idempotent on the collection when the batch's
present ids are pairwise distinct. -/
theorem createPostsFold_idem (l : List PostDoc) (ps : List PostDoc)
    (hnd : (ps.filterMap (fun q => q.linkedin_post_id)).Nodup) :
    (createPostsFold (createPostsFold l ps).1 ps).1
      = (createPostsFold l ps).1 := by
  rw [createPostsFold_fixed (createPostsFold l ps).1 ps
    (createPostsFold_establishes_find ps l hnd)]

/-- The ingestion commit decomposes collection-wise: the page upsert
touches only `pages`, the post loop only `posts`, the employee replace
only `employees`; `comments` is never written. -/
theorem ingest_commit_parts (s : Store) (d : PageData) (ps : List PostDoc)
    (es : List EmployeeDoc) (now : Nat) :
    ingest_commit s d ps es now
      = ⟨pagesUpsert s.pages (d.stamp now), (createPostsFold s.posts ps).1,
         employeesReplaceList s.employees es, s.comments⟩ := by
  cases ps with
  | nil => cases es with
    | nil => rfl
    | cons e0 rest => rfl
  | cons p0 pr => cases es with
    | nil => rfl
    | cons e0 rest => rfl

/-- C7: re-running the ingestion commit sequence with the same scraped
data (and, modelling "modulo the scraped-at timestamp", the same clock
value) leaves the store exactly as after the first run: the page write
is an upsert by `page_id`, the post writes are upserts by
`linkedin_post_id`, and the employee write is a full replace — never an
append.  The hypotheses hold for every scraped batch: the scraper
derives distinct fallback ids per position and stamps every employee
with the non-empty `page_id` it was asked to scrape. -/
theorem c7_ingest_idempotent (s : Store) (d : PageData)
    (ps : List PostDoc) (es : List EmployeeDoc) (now : Nat)
    (hnd : (ps.filterMap (fun q => q.linkedin_post_id)).Nodup)
    (hes : es = [] ∨ ∃ pid, pid ≠ "" ∧ ∀ e ∈ es, e.page_id = some pid) :
    ingest_commit (ingest_commit s d ps es now) d ps es now
      = ingest_commit s d ps es now := by
  rw [ingest_commit_parts s d ps es now, ingest_commit_parts]
  simp only [Store.mk.injEq]
  exact ⟨pagesUpsert_idem _ _, createPostsFold_idem _ _ hnd,
    employeesReplaceList_idem _ _ hes, trivial⟩

/-- C7 witness: a concrete page-posts-employees ingestion applied twice
equals the single application. -/
theorem c7_ingest_idempotent_witness :
    ingest_commit
      (ingest_commit ⟨[], [], [], []⟩ (mkPageData "p1" (some "Acme") 5 none)
        [mkPost "p1" (some "x") (some "1d")] [mkEmp (some "p1") "A"] 3)
      (mkPageData "p1" (some "Acme") 5 none)
      [mkPost "p1" (some "x") (some "1d")] [mkEmp (some "p1") "A"] 3
    = ingest_commit ⟨[], [], [], []⟩ (mkPageData "p1" (some "Acme") 5 none)
        [mkPost "p1" (some "x") (some "1d")] [mkEmp (some "p1") "A"] 3 :=
  c7_ingest_idempotent ⟨[], [], [], []⟩ (mkPageData "p1" (some "Acme") 5 none)
    [mkPost "p1" (some "x") (some "1d")] [mkEmp (some "p1") "A"] 3
    (by decide) (Or.inr ⟨"p1", by decide, by decide⟩)

end LinkedInScraper
